import Mathlib

/-!
Shallow embedding of the stroke-extraction core of `getchar.py`.

The embedding follows the source file closely:
* `Segment`, paths and sub-paths (`svg.path` line / quadratic-Bezier elements),
* `break_path` (the path decomposer),
* `Cusp`, `mkCusp` (the constructor `Cusp.__init__` with `_get_tangents` and
  `_get_angle`),
* the merge test and in-place update performed by `Cusp.merge`, and the
  scan loop of `get_cusps`,
* `try_connect` / `connect` (the directional connector) and the edge list
  produced by the double loop in `augment_glyph`.

Points and tangent vectors are complex numbers, as in the source; angles are
real numbers computed with `Complex.arg` (the exact semantics of
`math.atan2(z.imag, z.real)` on the principal branch `(-π, π]`).
-/

open Real

attribute [local instance] Classical.propDecidable

/-- A path segment: a straight line or a quadratic Bezier curve
(`svg.path.Line` / `svg.path.QuadraticBezier`). -/
inductive Segment where
  | line (p q : ℂ)
  | quad (p c q : ℂ)

instance : Inhabited Segment := ⟨.line 0 0⟩

/-- `segment.start`. -/
def Segment.start : Segment → ℂ
  | .line p _ => p
  | .quad p _ _ => p

/-- `segment.end`. -/
def Segment.end' : Segment → ℂ
  | .line _ q => q
  | .quad _ _ q => q

/-- The incoming tangent contributed by a segment at its end point:
`segment.end - segment.start`, except for a quadratic Bezier whose control
point differs from its end point, where it is `segment.end - segment.control`
(first half of `Cusp._get_tangents`). -/
noncomputable def tangentIn : Segment → ℂ
  | .line p q => q - p
  | .quad p c q => if q = c then q - p else q - c

/-- The outgoing tangent contributed by a segment at its start point:
`segment.end - segment.start`, except for a quadratic Bezier whose control
point differs from its end point, where it is `segment.control - segment.start`
(second half of `Cusp._get_tangents`). -/
noncomputable def tangentOut : Segment → ℂ
  | .line p q => q - p
  | .quad p c q => if c = q then q - p else c - p

/-- `Cusp._get_angle`: `0` if either vector is zero (Python falsiness of
`0j`), otherwise `atan2((v1/v2).imag, (v1/v2).real)`, i.e. `(v1 / v2).arg`. -/
noncomputable def get_angle (v1 v2 : ℂ) : ℝ :=
  if v1 = 0 ∨ v2 = 0 then 0 else (v1 / v2).arg

/-- `Cusp._get_tangents`: the pair of tangents at the vertex that ends
segment `j` of `path`, the outgoing one taken from segment `(j+1) % len`. -/
noncomputable def get_tangents (path : List Segment) (j : ℕ) : ℂ × ℂ :=
  (tangentIn (path.getD j default),
   tangentOut (path.getD ((j + 1) % path.length) default))

/-- The data held by a `Cusp` object: its `(subpath, segment)` index, its
vertex point and the two tangent vectors with the signed turning angle. -/
structure Cusp where
  index : ℕ × ℕ
  point : ℂ
  tangent1 : ℂ
  tangent2 : ℂ
  angle : ℝ

instance : Inhabited Cusp := ⟨(0, 0), 0, 0, 0, 0⟩

/-- `Cusp.__init__`: build the cusp at vertex `idx = (i, j)` of `paths`,
the vertex being the end point of segment `j` of sub-path `i`. -/
noncomputable def mkCusp (paths : List (List Segment)) (idx : ℕ × ℕ) : Cusp :=
  let path := paths.getD idx.1 []
  let t := get_tangents path idx.2
  ⟨idx, (path.getD idx.2 default).end', t.1, t.2, get_angle t.1 t.2⟩

/-- `MAX_CROSSING_DISTANCE = 64`. -/
def MAX_CROSSING_DISTANCE : ℝ := 64

/-- `MAX_CUSP_MERGE_DISTANCE = 15`. -/
def MAX_CUSP_MERGE_DISTANCE : ℝ := 15

/-- `MIN_CUSP_ANGLE = 0.1 * math.pi`. -/
noncomputable def MIN_CUSP_ANGLE : ℝ := 0.1 * π

/-- `Cusp._try_connect(self, other, reverse)`: immediately true when the two
points coincide, immediately false when their distance exceeds
`MAX_CROSSING_DISTANCE`, otherwise the feature-based test, with `other`'s two
tangents swapped when `reverse` holds. -/
noncomputable def try_connect (self other : Cusp) (reverse : Bool) : Prop :=
  if other.point = self.point then True
  else if Complex.abs (other.point - self.point) > MAX_CROSSING_DISTANCE then False
  else
    let diff := other.point - self.point
    let other1 := if reverse then other.tangent2 else other.tangent1
    let other2 := if reverse then other.tangent1 else other.tangent2
    let f0 := get_angle self.tangent1 diff
    let f1 := get_angle diff other2
    let f2 := get_angle diff self.tangent2
    let f3 := get_angle other1 diff
    f2 * f3 > 0 ∧ |f0| < 0.3 * π ∧ |f1| < 0.3 * π ∧
      |f2| > 0.3 * π ∧ |f3| > 0.3 * π

/-- `Cusp.connect(self, other)`: false for the same vertex index; for cusps on
the same sub-path only the forward orientation is tried; across sub-paths the
forward orientation and the orientation with `other`'s tangents swapped. -/
noncomputable def connect (self other : Cusp) : Prop :=
  if other.index = self.index then False
  else if other.index.1 = self.index.1 then try_connect self other false
  else try_connect self other false ∨ try_connect self other true

/-- The walk of `Cusp.merge`: starting from segment index `j`, repeatedly step
to `(j+1) % len(path)` adding that segment's chord length `|end - start|`,
until index `k` is reached.  The fuel argument makes the recursion structural;
`merge` runs it with fuel `path.length`, enough for any pair of valid
indices. -/
noncomputable def arcWalk (path : List Segment) (k : ℕ) : ℕ → ℕ → ℝ
  | 0, _ => 0
  | fuel + 1, j =>
    if j = k then 0
    else
      let j' := (j + 1) % path.length
      Complex.abs ((path.getD j' default).end' - (path.getD j' default).start) +
        arcWalk path k fuel j'

/-- The test of `Cusp.merge(self, other)` (lines guarding the update): both the
straight-line distance between the two cusp points and the forward arc length
from `self`'s vertex to `other`'s vertex must be at most
`MAX_CUSP_MERGE_DISTANCE`.  The walked path is `self.paths[self.index[0]]`. -/
noncomputable def mergeCond (paths : List (List Segment)) (self other : Cusp) : Prop :=
  Complex.abs (other.point - self.point) ≤ MAX_CUSP_MERGE_DISTANCE ∧
    arcWalk (paths.getD self.index.1 []) other.index.2
      (paths.getD self.index.1 []).length self.index.2 ≤ MAX_CUSP_MERGE_DISTANCE

/-- The update of `Cusp.merge(self, other)` on success: `other` keeps its own
index and point unless `self`'s angle is strictly larger in magnitude, takes
`tangent1` from `self`, and recomputes its angle from the new tangent pair. -/
noncomputable def mergeUpdate (self other : Cusp) : Cusp :=
  let ip := if |self.angle| > |other.angle| then (self.index, self.point)
    else (other.index, other.point)
  ⟨ip.1, ip.2, self.tangent1, other.tangent2,
    get_angle self.tangent1 other.tangent2⟩

/-- The scan loop of `get_cusps`: starting at position `j`, test
`cusps[j].merge(cusps[(j+1) % len(cusps)])`; on success write the merged data
into the successor slot and pop position `j` (staying at `j`), otherwise
advance to `j+1`; stop when `j` reaches the end of the list. -/
noncomputable def mergeLoop (paths : List (List Segment)) (l : List Cusp) (j : ℕ) :
    List Cusp :=
  if h : j < l.length then
    let a := l.get ⟨j, h⟩
    let b := l.get ⟨(j + 1) % l.length, Nat.mod_lt _ (Nat.zero_lt_of_lt h)⟩
    if mergeCond paths a b then
      mergeLoop paths ((l.set ((j + 1) % l.length) (mergeUpdate a b)).eraseIdx j) j
    else
      mergeLoop paths l (j + 1)
  else l
termination_by 2 * l.length - j
decreasing_by
  · rw [List.length_eraseIdx_of_lt (by simpa using h), List.length_set]
    omega
  · omega

/-- The Cusp Merger applied to one per-sub-path cusp list: the scan loop of
`get_cusps` started at position `0`. -/
noncomputable def merger (paths : List (List Segment)) (l : List Cusp) : List Cusp :=
  mergeLoop paths l 0

/-- The Cusp Detector of `get_cusps` for sub-path `i`: one candidate cusp per
segment index, in order, kept when `|angle| > MIN_CUSP_ANGLE`. -/
noncomputable def detectCusps (paths : List (List Segment)) (i : ℕ) : List Cusp :=
  ((List.range (paths.getD i []).length).map fun j => mkCusp paths (i, j)).filter
    fun c => decide (|c.angle| > MIN_CUSP_ANGLE)

/-- `get_cusps`: detect and merge per sub-path, concatenating the results. -/
noncomputable def get_cusps (paths : List (List Segment)) : List Cusp :=
  (List.range paths.length).flatMap fun i => merger paths (detectCusps paths i)

/-- `break_path`: split a path into maximal contiguous runs; a new sub-path
starts exactly before a segment whose start differs from the end of the
segment preceding it. -/
noncomputable def break_path : List Segment → List (List Segment)
  | [] => []
  | [s] => [[s]]
  | s :: t :: rest =>
    match break_path (t :: rest) with
    | [] => [[s]]
    | sp :: sps =>
      if t.start = s.end' then (s :: sp) :: sps else [s] :: sp :: sps

/-- The edge list produced by the connector double loop of `augment_glyph`:
one `(self.point, other.point)` edge per ordered pair with
`cusp.connect(other)`, in loop order. -/
noncomputable def connectionEdges (cusps : List Cusp) : List (ℂ × ℂ) :=
  cusps.flatMap fun c =>
    (cusps.filter fun o => decide (connect c o)).map fun o => (c.point, o.point)

/-- The analysis pipeline of `augment_glyph` from a (nonempty, degenerate-free)
path to the connection edges. -/
noncomputable def analyze (path : List Segment) : List (ℂ × ℂ) :=
  connectionEdges (get_cusps (break_path path))

/-! ### Distance and sign helpers -/

lemma complex_abs_le_iff {z : ℂ} {r : ℝ} (hr : 0 ≤ r) :
    Complex.abs z ≤ r ↔ Complex.normSq z ≤ r ^ 2 := by
  rw [Complex.abs_apply, Real.sqrt_le_iff]
  exact and_iff_right hr

lemma complex_abs_gt_iff {z : ℂ} {r : ℝ} (hr : 0 ≤ r) :
    Complex.abs z > r ↔ Complex.normSq z > r ^ 2 := by
  simp only [gt_iff_lt, ← not_le, complex_abs_le_iff hr]

lemma mul_pos_iff_sign_eq {x y : ℝ} (hx : x ≠ 0) (hy : y ≠ 0) :
    x * y > 0 ↔ Real.sign x = Real.sign y := by
  rcases hx.lt_or_lt with h | h <;> rcases hy.lt_or_lt with h' | h'
  · simpa [Real.sign_of_neg h, Real.sign_of_neg h'] using mul_pos_of_neg_of_neg h h'
  · simp only [Real.sign_of_neg h, Real.sign_of_pos h']
    constructor
    · intro hm; nlinarith
    · intro he; norm_num at he
  · simp only [Real.sign_of_pos h, Real.sign_of_neg h']
    constructor
    · intro hm; nlinarith
    · intro he; norm_num at he
  · simpa [Real.sign_of_pos h, Real.sign_of_pos h'] using mul_pos h h'

/-! ### Helpers about the connector -/

lemma try_connect_of_point_eq {a b : Cusp} (h : b.point = a.point) (s : Bool) :
    try_connect a b s := by
  unfold try_connect
  rw [if_pos h]
  trivial

lemma try_connect_far {a b : Cusp}
    (h : Complex.abs (b.point - a.point) > MAX_CROSSING_DISTANCE) (s : Bool) :
    ¬ try_connect a b s := by
  have hne : b.point ≠ a.point := by
    intro he
    rw [he, sub_self, map_zero] at h
    norm_num [MAX_CROSSING_DISTANCE] at h
  unfold try_connect
  rw [if_neg hne, if_pos h]
  exact not_false

lemma connect_self_index {a b : Cusp} (h : b.index = a.index) : ¬ connect a b := by
  unfold connect
  rw [if_pos h]
  exact not_false

lemma connect_far {a b : Cusp}
    (h : Complex.abs (b.point - a.point) > MAX_CROSSING_DISTANCE) : ¬ connect a b := by
  unfold connect
  by_cases h1 : b.index = a.index
  · rw [if_pos h1]; exact not_false
  · rw [if_neg h1]
    by_cases h2 : b.index.1 = a.index.1
    · rw [if_pos h2]; exact try_connect_far h false
    · rw [if_neg h2]
      rintro (hc | hc)
      · exact try_connect_far h false hc
      · exact try_connect_far h true hc

lemma connect_of_point_eq {a b : Cusp} (hi : b.index ≠ a.index) (hp : b.point = a.point) :
    connect a b := by
  unfold connect
  rw [if_neg hi]
  by_cases h2 : b.index.1 = a.index.1
  · rw [if_pos h2]; exact try_connect_of_point_eq hp false
  · rw [if_neg h2]; exact Or.inl (try_connect_of_point_eq hp false)

/-- Concrete cusp used to witness the connector theorems. -/
noncomputable def wA : Cusp := ⟨(0, 0), 0, 1, Complex.I, 0⟩

/-- Concrete cusp one unit away from `wA`, on the same sub-path. -/
noncomputable def wB : Cusp := ⟨(0, 1), 1, 1, 1, 0⟩

/-- Concrete cusp 200 units away from `wA`, on another sub-path. -/
noncomputable def wC : Cusp := ⟨(1, 0), 200, 1, 1, 0⟩

/-- C3: for cusps at distinct vertices whose distance is positive and at most
`MAX_CROSSING_DISTANCE`, and a fixed orientation, `try_connect` succeeds
exactly when `sign f2 = sign f3`, `|f0| < 0.3π`, `|f1| < 0.3π`,
`|f2| > 0.3π` and `|f3| > 0.3π`, the features being the signed angles of the
claim. -/
theorem try_connect_characterization (a b : Cusp) (s : Bool)
    (hidx : a.index ≠ b.index)
    (hpos : 0 < Complex.abs (b.point - a.point))
    (hle : Complex.abs (b.point - a.point) ≤ MAX_CROSSING_DISTANCE) :
    try_connect a b s ↔
      (Real.sign (get_angle (b.point - a.point) a.tangent2) =
          Real.sign (get_angle (if s then b.tangent2 else b.tangent1)
            (b.point - a.point)) ∧
        |get_angle a.tangent1 (b.point - a.point)| < 0.3 * π ∧
        |get_angle (b.point - a.point) (if s then b.tangent1 else b.tangent2)| <
          0.3 * π ∧
        |get_angle (b.point - a.point) a.tangent2| > 0.3 * π ∧
        |get_angle (if s then b.tangent2 else b.tangent1) (b.point - a.point)| >
          0.3 * π) := by
  have hne : b.point ≠ a.point := by
    intro he
    rw [he, sub_self, map_zero] at hpos
    exact lt_irrefl 0 hpos
  have h30 : (0:ℝ) < 0.3 * π := by nlinarith [Real.pi_pos]
  simp only [try_connect, if_neg hne, if_neg (not_lt.mpr hle)]
  constructor
  · rintro ⟨hm, h0, h1, h2, h3⟩
    refine ⟨?_, h0, h1, h2, h3⟩
    exact (mul_pos_iff_sign_eq (abs_pos.mp (lt_trans h30 h2))
      (abs_pos.mp (lt_trans h30 h3))).mp hm
  · rintro ⟨hm, h0, h1, h2, h3⟩
    refine ⟨?_, h0, h1, h2, h3⟩
    exact (mul_pos_iff_sign_eq (abs_pos.mp (lt_trans h30 h2))
      (abs_pos.mp (lt_trans h30 h3))).mpr hm

/-- Witness for C3 at the concrete cusps `wA`, `wB` (distance 1). -/
theorem try_connect_characterization_witness :
    wA.index ≠ wB.index ∧ 0 < Complex.abs (wB.point - wA.point) ∧
      Complex.abs (wB.point - wA.point) ≤ MAX_CROSSING_DISTANCE ∧
      (try_connect wA wB false ↔
        (Real.sign (get_angle (wB.point - wA.point) wA.tangent2) =
            Real.sign (get_angle (if false then wB.tangent2 else wB.tangent1)
              (wB.point - wA.point)) ∧
          |get_angle wA.tangent1 (wB.point - wA.point)| < 0.3 * π ∧
          |get_angle (wB.point - wA.point)
              (if false then wB.tangent1 else wB.tangent2)| < 0.3 * π ∧
          |get_angle (wB.point - wA.point) wA.tangent2| > 0.3 * π ∧
          |get_angle (if false then wB.tangent2 else wB.tangent1)
              (wB.point - wA.point)| > 0.3 * π)) := by
  have h1 : wA.index ≠ wB.index := by simp [wA, wB, Prod.ext_iff]
  have h2 : (0:ℝ) < Complex.abs (wB.point - wA.point) := by
    norm_num [wA, wB]
  have h3 : Complex.abs (wB.point - wA.point) ≤ MAX_CROSSING_DISTANCE := by
    norm_num [wA, wB, MAX_CROSSING_DISTANCE]
  exact ⟨h1, h2, h3, try_connect_characterization wA wB false h1 h2 h3⟩

/-- C6: for distinct cusps, `connect` tries only the forward orientation on a
common sub-path, and both the forward orientation and the orientation with
`b`'s tangents swapped across sub-paths. -/
theorem connect_orientation_rule (a b : Cusp) (h : b.index ≠ a.index) :
    (b.index.1 = a.index.1 → (connect a b ↔ try_connect a b false)) ∧
    (b.index.1 ≠ a.index.1 →
      (connect a b ↔ (try_connect a b false ∨ try_connect a b true))) := by
  constructor
  · intro hs
    unfold connect
    rw [if_neg h, if_pos hs]
  · intro hs
    unfold connect
    rw [if_neg h, if_neg hs]

/-- Witness for C6: a same-sub-path pair and a cross-sub-path pair. -/
theorem connect_orientation_rule_witness :
    (connect wA wB ↔ try_connect wA wB false) ∧
    (connect wA wC ↔ (try_connect wA wC false ∨ try_connect wA wC true)) := by
  constructor
  · exact (connect_orientation_rule wA wB (by simp [wA, wB, Prod.ext_iff])).1 rfl
  · exact (connect_orientation_rule wA wC (by simp [wA, wC, Prod.ext_iff])).2
      (by simp [wA, wC])

/-- C9: the connector never links a cusp to itself (equal vertex index) and
never links cusps farther apart than `MAX_CROSSING_DISTANCE`, in any
orientation. -/
theorem connector_no_self_no_far (a b : Cusp) :
    (b.index = a.index → ¬ connect a b) ∧
    (Complex.abs (b.point - a.point) > MAX_CROSSING_DISTANCE → ¬ connect a b) :=
  ⟨connect_self_index, connect_far⟩

/-- Witness for C9: the self pair `(wA, wA)` and the far pair `(wA, wC)`. -/
theorem connector_no_self_no_far_witness :
    ¬ connect wA wA ∧ ¬ connect wA wC := by
  constructor
  · exact (connector_no_self_no_far wA wA).1 rfl
  · exact (connector_no_self_no_far wA wC).2 (by norm_num [wA, wC, MAX_CROSSING_DISTANCE])

/-! ### The path decomposer (C7) -/

lemma break_path_cons : ∀ (s : Segment) (rest : List Segment),
    ∃ a b, break_path (s :: rest) = (s :: a) :: b
  | _, [] => ⟨[], [], rfl⟩
  | s, t :: rest => by
    obtain ⟨a, b, hab⟩ := break_path_cons t rest
    simp only [break_path, hab]
    by_cases hc : t.start = s.end'
    · exact ⟨t :: a, b, by rw [if_pos hc]⟩
    · exact ⟨[], (t :: a) :: b, by rw [if_neg hc]⟩

lemma break_path_flatten : ∀ l : List Segment, (break_path l).flatten = l
  | [] => rfl
  | [_] => rfl
  | s :: t :: rest => by
    obtain ⟨a, b, hab⟩ := break_path_cons t rest
    have IH := break_path_flatten (t :: rest)
    rw [hab] at IH
    simp only [break_path, hab]
    have h2 : a ++ b.flatten = rest := by
      simpa using IH
    by_cases hc : t.start = s.end'
    · rw [if_pos hc]
      simp [List.flatten_cons, h2]
    · rw [if_neg hc]
      simp [List.flatten_cons, h2]

lemma break_path_parts : ∀ l : List Segment, ∀ sp ∈ break_path l,
    sp ≠ [] ∧ sp.Chain' (fun u v => v.start = u.end')
  | [] => by simp [break_path]
  | [s] => by
    intro sp hsp
    simp only [break_path, List.mem_singleton] at hsp
    subst hsp
    simp
  | s :: t :: rest => by
    obtain ⟨a, b, hab⟩ := break_path_cons t rest
    have IH := break_path_parts (t :: rest)
    rw [hab] at IH
    intro sp hsp
    simp only [break_path, hab] at hsp
    by_cases hc : t.start = s.end'
    · rw [if_pos hc] at hsp
      rcases List.mem_cons.mp hsp with h1 | h1
      · subst h1
        refine ⟨by simp, ?_⟩
        rw [List.chain'_cons]
        exact ⟨hc, (IH (t :: a) (List.mem_cons_self _ _)).2⟩
      · exact IH sp (List.mem_cons_of_mem _ h1)
    · rw [if_neg hc] at hsp
      rcases List.mem_cons.mp hsp with h1 | h1
      · subst h1; simp
      · exact IH sp h1

lemma break_path_bounds : ∀ l : List Segment,
    (break_path l).Chain'
      (fun sp tp => ∀ u ∈ sp.getLast?, ∀ v ∈ tp.head?, v.start ≠ u.end')
  | [] => by simp [break_path]
  | [s] => by simp [break_path]
  | s :: t :: rest => by
    obtain ⟨a, b, hab⟩ := break_path_cons t rest
    have IH := break_path_bounds (t :: rest)
    rw [hab] at IH
    simp only [break_path, hab]
    by_cases hc : t.start = s.end'
    · rw [if_pos hc]
      rw [List.chain'_cons'] at IH ⊢
      refine ⟨?_, IH.2⟩
      intro y hy
      have := IH.1 y hy
      simpa using this
    · rw [if_neg hc]
      rw [List.chain'_cons]
      refine ⟨?_, IH⟩
      intro u hu v hv
      simp only [List.getLast?_singleton, Option.mem_def, Option.some.injEq] at hu
      simp only [List.head?_cons, Option.mem_def, Option.some.injEq] at hv
      subst hu; subst hv
      exact hc

/-- C7: for a nonempty path, `break_path` is a partition into nonempty
contiguous sub-paths, a new sub-path starting exactly where a segment's start
differs from the previous segment's end: flattening the output reproduces the
input, every sub-path is internally contiguous, and consecutive sub-paths meet
at a discontinuity. -/
theorem break_path_partition (l : List Segment) (h : l ≠ []) :
    (break_path l).flatten = l ∧
      (∀ sp ∈ break_path l, sp ≠ [] ∧
        sp.Chain' (fun u v => v.start = u.end')) ∧
      (break_path l).Chain'
        (fun sp tp => ∀ u ∈ sp.getLast?, ∀ v ∈ tp.head?, v.start ≠ u.end') :=
  ⟨break_path_flatten l, break_path_parts l, break_path_bounds l⟩

/-- Witness for C7 at a concrete two-segment discontinuous path. -/
theorem break_path_partition_witness :
    (break_path [Segment.line 0 1, Segment.line 5 6]).flatten =
        [Segment.line 0 1, Segment.line 5 6] ∧
      (∀ sp ∈ break_path [Segment.line 0 1, Segment.line 5 6], sp ≠ [] ∧
        sp.Chain' (fun u v => v.start = u.end')) ∧
      (break_path [Segment.line 0 1, Segment.line 5 6]).Chain'
        (fun sp tp => ∀ u ∈ sp.getLast?, ∀ v ∈ tp.head?, v.start ≠ u.end') :=
  break_path_partition [Segment.line 0 1, Segment.line 5 6] (by simp)

/-! ### The merger scan: step lemmas and general bounds (C4, C8, C10) -/

lemma arcWalk_self (path : List Segment) (k fuel : ℕ) : arcWalk path k fuel k = 0 := by
  cases fuel <;> simp [arcWalk]

lemma mergeLoop_stop {paths : List (List Segment)} {l : List Cusp} {j : ℕ}
    (h : ¬ j < l.length) : mergeLoop paths l j = l := by
  rw [mergeLoop, dif_neg h]

lemma mergeLoop_step_merge {paths : List (List Segment)} {l : List Cusp} {j : ℕ}
    (h : j < l.length)
    (hc : mergeCond paths (l.get ⟨j, h⟩)
      (l.get ⟨(j + 1) % l.length, Nat.mod_lt _ (Nat.zero_lt_of_lt h)⟩)) :
    mergeLoop paths l j =
      mergeLoop paths ((l.set ((j + 1) % l.length)
        (mergeUpdate (l.get ⟨j, h⟩)
          (l.get ⟨(j + 1) % l.length, Nat.mod_lt _ (Nat.zero_lt_of_lt h)⟩))).eraseIdx j)
        j := by
  rw [mergeLoop, dif_pos h, if_pos hc]

lemma mergeLoop_step_advance {paths : List (List Segment)} {l : List Cusp} {j : ℕ}
    (h : j < l.length)
    (hc : ¬ mergeCond paths (l.get ⟨j, h⟩)
      (l.get ⟨(j + 1) % l.length, Nat.mod_lt _ (Nat.zero_lt_of_lt h)⟩)) :
    mergeLoop paths l j = mergeLoop paths l (j + 1) := by
  rw [mergeLoop, dif_pos h, if_neg hc]

lemma mergeLoop_length_le (paths : List (List Segment)) :
    ∀ n (l : List Cusp) (j : ℕ), 2 * l.length - j ≤ n →
      (mergeLoop paths l j).length ≤ l.length := by
  intro n
  induction n with
  | zero =>
    intro l j hm
    have h : ¬ j < l.length := by omega
    rw [mergeLoop_stop h]
  | succ n IH =>
    intro l j hm
    by_cases h : j < l.length
    · by_cases hc : mergeCond paths (l.get ⟨j, h⟩)
        (l.get ⟨(j + 1) % l.length, Nat.mod_lt _ (Nat.zero_lt_of_lt h)⟩)
      · rw [mergeLoop_step_merge h hc]
        have hlen : ((l.set ((j + 1) % l.length)
            (mergeUpdate (l.get ⟨j, h⟩)
              (l.get ⟨(j + 1) % l.length, Nat.mod_lt _ (Nat.zero_lt_of_lt h)⟩))).eraseIdx
              j).length = l.length - 1 := by
          rw [List.length_eraseIdx_of_lt (by simpa using h), List.length_set]
        have hrec := IH _ j (by rw [hlen]; omega)
        rw [hlen] at hrec
        omega
      · rw [mergeLoop_step_advance h hc]
        exact IH l (j + 1) (by omega)
    · rw [mergeLoop_stop h]

/-- C8: the merger never lengthens a cusp list, and whenever the
cyclically-adjacent pair at the scan position fails either the point-distance
bound or the arc-length bound (`MAX_CUSP_MERGE_DISTANCE`), no merge happens:
the scan just advances. -/
theorem merger_monotone_guarded (paths : List (List Segment)) (l : List Cusp) :
    (merger paths l).length ≤ l.length ∧
      ∀ j (h : j < l.length),
        ¬ (Complex.abs
              ((l.get ⟨(j + 1) % l.length, Nat.mod_lt _ (Nat.zero_lt_of_lt h)⟩).point -
                (l.get ⟨j, h⟩).point) ≤ MAX_CUSP_MERGE_DISTANCE ∧
            arcWalk (paths.getD (l.get ⟨j, h⟩).index.1 [])
              (l.get ⟨(j + 1) % l.length, Nat.mod_lt _ (Nat.zero_lt_of_lt h)⟩).index.2
              (paths.getD (l.get ⟨j, h⟩).index.1 []).length
              (l.get ⟨j, h⟩).index.2 ≤ MAX_CUSP_MERGE_DISTANCE) →
          mergeLoop paths l j = mergeLoop paths l (j + 1) := by
  constructor
  · exact mergeLoop_length_le paths (2 * l.length) l 0 (by omega)
  · intro j h hc
    exact mergeLoop_step_advance h hc

/-- Witness for C8: a two-cusp list whose first adjacent pair is 200 units
apart, so the scan advances without merging. -/
theorem merger_monotone_guarded_witness :
    (merger [] [wA, wC]).length ≤ ([wA, wC] : List Cusp).length ∧
      mergeLoop [] [wA, wC] 0 = mergeLoop [] [wA, wC] 1 := by
  have h0 : (0:ℕ) < ([wA, wC] : List Cusp).length := by simp
  refine ⟨(merger_monotone_guarded [] [wA, wC]).1, ?_⟩
  refine (merger_monotone_guarded [] [wA, wC]).2 0 h0 ?_
  rintro ⟨hd, -⟩
  have hval : (([wA, wC] : List Cusp).get
      ⟨(0 + 1) % ([wA, wC] : List Cusp).length,
        Nat.mod_lt _ (Nat.zero_lt_of_lt h0)⟩).point -
      (([wA, wC] : List Cusp).get ⟨0, h0⟩).point = 200 := by
    show wC.point - wA.point = 200
    norm_num [wA, wC]
  rw [hval] at hd
  norm_num [MAX_CUSP_MERGE_DISTANCE] at hd

/-- The iteration count of the merger scan: one unit per loop iteration,
following exactly the recursion of `mergeLoop` (stay at `j` after a merge,
advance to `j+1` otherwise). -/
noncomputable def mergeLoopSteps (paths : List (List Segment)) (l : List Cusp) (j : ℕ) :
    ℕ :=
  if h : j < l.length then
    (if mergeCond paths (l.get ⟨j, h⟩)
        (l.get ⟨(j + 1) % l.length, Nat.mod_lt _ (Nat.zero_lt_of_lt h)⟩) then
      mergeLoopSteps paths ((l.set ((j + 1) % l.length)
        (mergeUpdate (l.get ⟨j, h⟩)
          (l.get ⟨(j + 1) % l.length, Nat.mod_lt _ (Nat.zero_lt_of_lt h)⟩))).eraseIdx j)
        j
    else mergeLoopSteps paths l (j + 1)) + 1
  else 0
termination_by 2 * l.length - j
decreasing_by
  · rw [List.length_eraseIdx_of_lt (by simpa using h), List.length_set]
    omega
  · omega

lemma mergeLoopSteps_le (paths : List (List Segment)) :
    ∀ n (l : List Cusp) (j : ℕ), 2 * l.length - j ≤ n →
      mergeLoopSteps paths l j ≤ 2 * l.length - j := by
  intro n
  induction n with
  | zero =>
    intro l j hm
    have h : ¬ j < l.length := by omega
    rw [mergeLoopSteps, dif_neg h]
    omega
  | succ n IH =>
    intro l j hm
    by_cases h : j < l.length
    · rw [mergeLoopSteps, dif_pos h]
      by_cases hc : mergeCond paths (l.get ⟨j, h⟩)
        (l.get ⟨(j + 1) % l.length, Nat.mod_lt _ (Nat.zero_lt_of_lt h)⟩)
      · rw [if_pos hc]
        have hlen : ((l.set ((j + 1) % l.length)
            (mergeUpdate (l.get ⟨j, h⟩)
              (l.get ⟨(j + 1) % l.length, Nat.mod_lt _ (Nat.zero_lt_of_lt h)⟩))).eraseIdx
              j).length = l.length - 1 := by
          rw [List.length_eraseIdx_of_lt (by simpa using h), List.length_set]
        have hrec := IH _ j (by rw [hlen]; omega)
        rw [hlen] at hrec
        omega
      · rw [if_neg hc]
        have hrec := IH l (j + 1) (by omega)
        omega
    · rw [mergeLoopSteps, dif_neg h]
      omega

/-- C10: the merger scan terminates after at most `2 * n` iterations on a list
of `n` cusps: every iteration either strictly shrinks the list (staying at the
same index) or strictly advances the index. -/
theorem merger_scan_bounded (paths : List (List Segment)) (l : List Cusp) :
    mergeLoopSteps paths l 0 ≤ 2 * l.length :=
  le_trans (mergeLoopSteps_le paths (2 * l.length) l 0 (by omega)) (by omega)

lemma merger_single_aux (paths : List (List Segment)) (c : Cusp) :
    merger paths [c] = [] := by
  have h : (0:ℕ) < ([c] : List Cusp).length := by simp
  have hc : mergeCond paths c c := by
    constructor
    · rw [sub_self, map_zero]
      norm_num [MAX_CUSP_MERGE_DISTANCE]
    · rw [arcWalk_self]
      norm_num [MAX_CUSP_MERGE_DISTANCE]
  have hgb : ([c] : List Cusp).get ⟨(0 + 1) % ([c] : List Cusp).length,
      Nat.mod_lt _ (Nat.zero_lt_of_lt h)⟩ = c := by simp
  have hga : ([c] : List Cusp).get ⟨0, h⟩ = c := rfl
  have hc' : mergeCond paths (([c] : List Cusp).get ⟨0, h⟩)
      (([c] : List Cusp).get ⟨(0 + 1) % ([c] : List Cusp).length,
        Nat.mod_lt _ (Nat.zero_lt_of_lt h)⟩) := by
    rw [hga, hgb]; exact hc
  rw [merger, mergeLoop_step_merge h hc']
  have he : (([c] : List Cusp).set ((0 + 1) % ([c] : List Cusp).length)
      (mergeUpdate (([c] : List Cusp).get ⟨0, h⟩)
        (([c] : List Cusp).get ⟨(0 + 1) % ([c] : List Cusp).length,
          Nat.mod_lt _ (Nat.zero_lt_of_lt h)⟩))).eraseIdx 0 = ([] : List Cusp) := by
    simp
  rw [he]
  exact mergeLoop_stop (by simp)

/-- C4: on a one-element cusp list the scan compares the sole cusp with its
cyclic successor, which is the cusp itself; both the point distance and the
arc length are `0`, so the cusp is merged away and the merger returns `[]`. -/
theorem merger_singleton_empty (paths : List (List Segment)) (c : Cusp) :
    merger paths [c] = [] :=
  merger_single_aux paths c

/-! ### The detector (C5) and the connector edge list (C1) -/

/-- C5: the detector outputs, in segment order, exactly the vertices whose
turning angle `atan2(Im r, Re r)` for `r = tangent_in / tangent_out` (zero when
either tangent is the zero vector) exceeds `0.1 * π` in magnitude. -/
theorem detector_characterization (paths : List (List Segment)) (i : ℕ) :
    detectCusps paths i =
      ((List.range (paths.getD i []).length).filter fun j =>
        decide (|if tangentIn ((paths.getD i []).getD j default) = 0 ∨
              tangentOut ((paths.getD i []).getD ((j + 1) % (paths.getD i []).length)
                default) = 0 then (0:ℝ)
            else (tangentIn ((paths.getD i []).getD j default) /
              tangentOut ((paths.getD i []).getD ((j + 1) % (paths.getD i []).length)
                default)).arg| > 0.1 * π)).map
        fun j => mkCusp paths (i, j) := by
  unfold detectCusps
  rw [List.filter_map]
  rfl

lemma filter_map_pair (a : Cusp) : ∀ l : List Cusp,
    ((l.filter fun o => decide (connect a o)).map
        fun o => ((a.point, o.point) : ℂ × ℂ)) =
      (((l.map fun b => (a, b)).filter fun p => decide (connect p.1 p.2)).map
        fun p => (p.1.point, p.2.point))
  | [] => rfl
  | b :: l => by
    have IH := filter_map_pair a l
    by_cases h : connect a b
    · have hd : decide (connect a b) = true := decide_eq_true h
      simp only [List.map_cons, List.filter_cons, hd, if_true, IH]
    · have hd : decide (connect a b) = false := decide_eq_false h
      simp only [List.map_cons, List.filter_cons, hd, if_false, IH,
        Bool.false_eq_true]

lemma connectionEdges_product_aux (cusps : List Cusp) : ∀ l1 : List Cusp,
    (l1.flatMap fun c => (cusps.filter fun o => decide (connect c o)).map
        fun o => (c.point, o.point)) =
      ((l1 ×ˢ cusps).filter fun p => decide (connect p.1 p.2)).map
        fun p => (p.1.point, p.2.point)
  | [] => rfl
  | c :: l1 => by
    have IH := connectionEdges_product_aux cusps l1
    rw [List.flatMap_cons, List.product_cons, List.filter_append, List.map_append,
      IH, filter_map_pair]

/-- C1 (amended): the connector's output contains one edge per *ordered* pair
`(a, b)` of cusps with `connect a b`, in loop order; nothing deduplicates the
two ordered versions of an unordered pair. -/
theorem connector_edges_per_ordered_pair (cusps : List Cusp) :
    connectionEdges cusps =
      ((cusps ×ˢ cusps).filter fun p => decide (connect p.1 p.2)).map
        fun p => (p.1.point, p.2.point) :=
  connectionEdges_product_aux cusps cusps

/-! ### A concrete glyph with a duplicated connector edge (C1) -/

/-- Sub-path 0, segment 0 of the duplicate-edge glyph. -/
def e0 : Segment := .line 100 0

/-- Sub-path 0, segment 1. -/
def e1 : Segment := .line 0 100

/-- Sub-path 1, segment 0 (its start breaks continuity after `e1`). -/
def e2 : Segment := .line 0 (100 * Complex.I)

/-- Sub-path 1, segment 1; it ends at `0`, the point where `e0` also ends. -/
def e3 : Segment := .line (100 * Complex.I) 0

/-- The glyph path: two out-and-back contours sharing the point `0`. -/
def dupPath : List Segment := [e0, e1, e2, e3]

/-- Its decomposition into sub-paths. -/
def dupPaths : List (List Segment) := [[e0, e1], [e2, e3]]

lemma break_dupPath : break_path dupPath = dupPaths := by
  have bp3 : break_path [e2, e3] = [[e2, e3]] := by
    simp only [break_path]
    rw [if_pos (show e3.start = e2.end' from rfl)]
  have bp2 : break_path [e1, e2, e3] = [[e1], [e2, e3]] := by
    rw [show break_path [e1, e2, e3] =
        (match break_path [e2, e3] with
         | [] => [[e1]]
         | sp :: sps => if e2.start = e1.end' then (e1 :: sp) :: sps
           else [e1] :: sp :: sps) from rfl]
    rw [bp3]
    show (if e2.start = e1.end' then (e1 :: [e2, e3]) :: []
      else [e1] :: [e2, e3] :: []) = [[e1], [e2, e3]]
    rw [if_neg (show ¬ e2.start = e1.end' by
      show ¬ (0:ℂ) = 100
      norm_num)]
  rw [show break_path dupPath =
      (match break_path [e1, e2, e3] with
       | [] => [[e0]]
       | sp :: sps => if e1.start = e0.end' then (e0 :: sp) :: sps
         else [e0] :: sp :: sps) from rfl]
  rw [bp2]
  show (if e1.start = e0.end' then (e0 :: [e1]) :: [[e2, e3]]
    else [e0] :: [e1] :: [[e2, e3]]) = dupPaths
  rw [if_pos (show e1.start = e0.end' from rfl)]
  rfl

/-- The four cusps of the duplicate-edge glyph. -/
noncomputable def cuA : Cusp := mkCusp dupPaths (0, 0)

/-- Cusp at vertex `(0, 1)` (point `100`). -/
noncomputable def cuB : Cusp := mkCusp dupPaths (0, 1)

/-- Cusp at vertex `(1, 0)` (point `100 i`). -/
noncomputable def cuC : Cusp := mkCusp dupPaths (1, 0)

/-- Cusp at vertex `(1, 1)` (point `0`, the same point as `cuA`). -/
noncomputable def cuD : Cusp := mkCusp dupPaths (1, 1)

lemma get_angle_neg_left {v : ℂ} (hv : v ≠ 0) : get_angle (-v) v = π := by
  rw [get_angle, if_neg (by simp [hv]), neg_div, div_self hv, Complex.arg_neg_one]

lemma get_angle_neg_right {v : ℂ} (hv : v ≠ 0) : get_angle v (-v) = π := by
  rw [get_angle, if_neg (by simp [hv]), div_neg, div_self hv, Complex.arg_neg_one]

lemma abs_pi_gt_min : |π| > MIN_CUSP_ANGLE := by
  rw [abs_of_pos Real.pi_pos, MIN_CUSP_ANGLE]
  nlinarith [Real.pi_pos]

lemma cuA_point : cuA.point = 0 := rfl

lemma cuB_point : cuB.point = 100 := rfl

lemma cuC_point : cuC.point = 100 * Complex.I := rfl

lemma cuD_point : cuD.point = 0 := rfl

lemma cuA_angle : cuA.angle = π := by
  have h : cuA.angle = get_angle ((0:ℂ) - 100) ((100:ℂ) - 0) := by
    simp [cuA, mkCusp, get_tangents, dupPaths, e0, e1, tangentIn, tangentOut]
  rw [h, show ((0:ℂ) - 100) = -100 by norm_num, show ((100:ℂ) - 0) = 100 by norm_num]
  exact get_angle_neg_left (by norm_num)

lemma cuB_angle : cuB.angle = π := by
  have h : cuB.angle = get_angle ((100:ℂ) - 0) ((0:ℂ) - 100) := by
    simp [cuB, mkCusp, get_tangents, dupPaths, e0, e1, tangentIn, tangentOut]
  rw [h, show ((0:ℂ) - 100) = -100 by norm_num, show ((100:ℂ) - 0) = 100 by norm_num]
  exact get_angle_neg_right (by norm_num)

lemma cuC_angle : cuC.angle = π := by
  have h : cuC.angle = get_angle (100 * Complex.I - 0) ((0:ℂ) - 100 * Complex.I) := by
    simp [cuC, mkCusp, get_tangents, dupPaths, e2, e3, tangentIn, tangentOut]
  rw [h, show ((0:ℂ) - 100 * Complex.I) = -(100 * Complex.I) by ring,
    show (100 * Complex.I - 0 : ℂ) = 100 * Complex.I by ring]
  exact get_angle_neg_right (mul_ne_zero (by norm_num) Complex.I_ne_zero)

lemma cuD_angle : cuD.angle = π := by
  have h : cuD.angle = get_angle ((0:ℂ) - 100 * Complex.I) (100 * Complex.I - 0) := by
    simp [cuD, mkCusp, get_tangents, dupPaths, e2, e3, tangentIn, tangentOut]
  rw [h, show ((0:ℂ) - 100 * Complex.I) = -(100 * Complex.I) by ring,
    show (100 * Complex.I - 0 : ℂ) = 100 * Complex.I by ring]
  exact get_angle_neg_left (mul_ne_zero (by norm_num) Complex.I_ne_zero)

lemma detect_dup0 : detectCusps dupPaths 0 = [cuA, cuB] := by
  unfold detectCusps
  rw [show (dupPaths.getD 0 []).length = 2 from rfl,
    show List.range 2 = [0, 1] from rfl]
  simp only [List.map_cons, List.map_nil]
  have hd0 : decide (|(mkCusp dupPaths (0, 0)).angle| > MIN_CUSP_ANGLE) = true :=
    decide_eq_true (by rw [show mkCusp dupPaths (0, 0) = cuA from rfl, cuA_angle]
                       exact abs_pi_gt_min)
  have hd1 : decide (|(mkCusp dupPaths (0, 1)).angle| > MIN_CUSP_ANGLE) = true :=
    decide_eq_true (by rw [show mkCusp dupPaths (0, 1) = cuB from rfl, cuB_angle]
                       exact abs_pi_gt_min)
  simp only [List.filter_cons, List.filter_nil, hd0, hd1, if_true]
  rfl

lemma detect_dup1 : detectCusps dupPaths 1 = [cuC, cuD] := by
  unfold detectCusps
  rw [show (dupPaths.getD 1 []).length = 2 from rfl,
    show List.range 2 = [0, 1] from rfl]
  simp only [List.map_cons, List.map_nil]
  have hd0 : decide (|(mkCusp dupPaths (1, 0)).angle| > MIN_CUSP_ANGLE) = true :=
    decide_eq_true (by rw [show mkCusp dupPaths (1, 0) = cuC from rfl, cuC_angle]
                       exact abs_pi_gt_min)
  have hd1 : decide (|(mkCusp dupPaths (1, 1)).angle| > MIN_CUSP_ANGLE) = true :=
    decide_eq_true (by rw [show mkCusp dupPaths (1, 1) = cuD from rfl, cuD_angle]
                       exact abs_pi_gt_min)
  simp only [List.filter_cons, List.filter_nil, hd0, hd1, if_true]
  rfl

lemma mergeCond_not_far {paths : List (List Segment)} {x y : Cusp}
    (h : Complex.normSq (y.point - x.point) > 225) : ¬ mergeCond paths x y := by
  rintro ⟨h1, -⟩
  have h1' : Complex.abs (y.point - x.point) ≤ (15:ℝ) := h1
  rw [complex_abs_le_iff (by norm_num : (0:ℝ) ≤ 15)] at h1'
  norm_num at h1'
  linarith

lemma merger_pair_stable {paths : List (List Segment)} {x y : Cusp}
    (h1 : ¬ mergeCond paths x y) (h2 : ¬ mergeCond paths y x) :
    merger paths [x, y] = [x, y] := by
  have ha : (0:ℕ) < ([x, y] : List Cusp).length := by simp
  have hb : (1:ℕ) < ([x, y] : List Cusp).length := by simp
  have ega : ([x, y] : List Cusp).get ⟨0, ha⟩ = x := rfl
  have egb : ([x, y] : List Cusp).get ⟨(0 + 1) % ([x, y] : List Cusp).length,
      Nat.mod_lt _ (Nat.zero_lt_of_lt ha)⟩ = y := by simp
  have egc : ([x, y] : List Cusp).get ⟨1, hb⟩ = y := rfl
  have egd : ([x, y] : List Cusp).get ⟨(1 + 1) % ([x, y] : List Cusp).length,
      Nat.mod_lt _ (Nat.zero_lt_of_lt hb)⟩ = x := by simp
  rw [merger, mergeLoop_step_advance ha (by rw [ega, egb]; exact h1),
    mergeLoop_step_advance hb (by rw [egc, egd]; exact h2),
    mergeLoop_stop (by simp)]

lemma merge_dup0 : merger dupPaths [cuA, cuB] = [cuA, cuB] := by
  refine merger_pair_stable (mergeCond_not_far ?_) (mergeCond_not_far ?_)
  · rw [cuB_point, cuA_point]
    simp [Complex.normSq_apply]
    norm_num
  · rw [cuB_point, cuA_point]
    simp [Complex.normSq_apply]
    norm_num

lemma merge_dup1 : merger dupPaths [cuC, cuD] = [cuC, cuD] := by
  refine merger_pair_stable (mergeCond_not_far ?_) (mergeCond_not_far ?_)
  · rw [cuD_point, cuC_point]
    simp [Complex.normSq_apply]
    norm_num
  · rw [cuD_point, cuC_point]
    simp [Complex.normSq_apply]
    norm_num

lemma cusps_dup : get_cusps dupPaths = [cuA, cuB, cuC, cuD] := by
  unfold get_cusps
  rw [show dupPaths.length = 2 from rfl, show List.range 2 = [0, 1] from rfl]
  simp only [List.flatMap_cons, List.flatMap_nil, List.append_nil]
  rw [detect_dup0, detect_dup1, merge_dup0, merge_dup1]
  rfl

lemma connect_far_of_normSq {x y : Cusp}
    (h : Complex.normSq (y.point - x.point) > 4096) : ¬ connect x y := by
  apply connect_far
  have h64 : ((64:ℝ))^2 = 4096 := by norm_num
  exact (complex_abs_gt_iff (show (0:ℝ) ≤ 64 by norm_num)).mpr (by rw [h64]; exact h)

/-- C1 (counterexample): on the concrete glyph `dupPath`, whose two sub-paths
share the point `0`, the analysis emits the edge `(0, 0)` twice — once for
each ordered pair of the two coincident cusps — so an unordered pair is not
emitted at most once. -/
theorem connector_duplicate_edge :
    analyze dupPath = [((0:ℂ), (0:ℂ)), (0, 0)] := by
  rw [analyze, break_dupPath, cusps_dup]
  have nsqAB : Complex.normSq (cuB.point - cuA.point) > 4096 := by
    rw [cuB_point, cuA_point]; simp [Complex.normSq_apply]; norm_num
  have nsqAC : Complex.normSq (cuC.point - cuA.point) > 4096 := by
    rw [cuC_point, cuA_point]; simp [Complex.normSq_apply]; norm_num
  have nsqBA : Complex.normSq (cuA.point - cuB.point) > 4096 := by
    rw [cuB_point, cuA_point]; simp [Complex.normSq_apply]; norm_num
  have nsqBC : Complex.normSq (cuC.point - cuB.point) > 4096 := by
    rw [cuC_point, cuB_point]; simp [Complex.normSq_apply]; norm_num
  have nsqBD : Complex.normSq (cuD.point - cuB.point) > 4096 := by
    rw [cuD_point, cuB_point]; simp [Complex.normSq_apply]; norm_num
  have nsqCA : Complex.normSq (cuA.point - cuC.point) > 4096 := by
    rw [cuC_point, cuA_point]; simp [Complex.normSq_apply]; norm_num
  have nsqCB : Complex.normSq (cuB.point - cuC.point) > 4096 := by
    rw [cuC_point, cuB_point]; simp [Complex.normSq_apply]; norm_num
  have nsqCD : Complex.normSq (cuD.point - cuC.point) > 4096 := by
    rw [cuD_point, cuC_point]; simp [Complex.normSq_apply]; norm_num
  have nsqDB : Complex.normSq (cuB.point - cuD.point) > 4096 := by
    rw [cuD_point, cuB_point]; simp [Complex.normSq_apply]; norm_num
  have nsqDC : Complex.normSq (cuC.point - cuD.point) > 4096 := by
    rw [cuD_point, cuC_point]; simp [Complex.normSq_apply]; norm_num
  have dAA : decide (connect cuA cuA) = false := decide_eq_false (connect_self_index rfl)
  have dBB : decide (connect cuB cuB) = false := decide_eq_false (connect_self_index rfl)
  have dCC : decide (connect cuC cuC) = false := decide_eq_false (connect_self_index rfl)
  have dDD : decide (connect cuD cuD) = false := decide_eq_false (connect_self_index rfl)
  have dAB : decide (connect cuA cuB) = false :=
    decide_eq_false (connect_far_of_normSq nsqAB)
  have dAC : decide (connect cuA cuC) = false :=
    decide_eq_false (connect_far_of_normSq nsqAC)
  have dBA : decide (connect cuB cuA) = false :=
    decide_eq_false (connect_far_of_normSq nsqBA)
  have dBC : decide (connect cuB cuC) = false :=
    decide_eq_false (connect_far_of_normSq nsqBC)
  have dBD : decide (connect cuB cuD) = false :=
    decide_eq_false (connect_far_of_normSq nsqBD)
  have dCA : decide (connect cuC cuA) = false :=
    decide_eq_false (connect_far_of_normSq nsqCA)
  have dCB : decide (connect cuC cuB) = false :=
    decide_eq_false (connect_far_of_normSq nsqCB)
  have dCD : decide (connect cuC cuD) = false :=
    decide_eq_false (connect_far_of_normSq nsqCD)
  have dDB : decide (connect cuD cuB) = false :=
    decide_eq_false (connect_far_of_normSq nsqDB)
  have dDC : decide (connect cuD cuC) = false :=
    decide_eq_false (connect_far_of_normSq nsqDC)
  have dAD : decide (connect cuA cuD) = true :=
    decide_eq_true (connect_of_point_eq
      (by show ((1, 1) : ℕ × ℕ) ≠ (0, 0); simp [Prod.ext_iff])
      (by rw [cuD_point, cuA_point]))
  have dDA : decide (connect cuD cuA) = true :=
    decide_eq_true (connect_of_point_eq
      (by show ((0, 0) : ℕ × ℕ) ≠ (1, 1); simp [Prod.ext_iff])
      (by rw [cuD_point, cuA_point]))
  unfold connectionEdges
  simp only [List.flatMap_cons, List.flatMap_nil, List.filter_cons, List.filter_nil,
    dAA, dAB, dAC, dAD, dBA, dBB, dBC, dBD, dCA, dCB, dCC, dCD, dDA, dDB, dDC, dDD,
    List.map_cons, List.map_nil, List.append_nil, List.nil_append, List.cons_append,
    cuA_point, cuD_point]
  simp
  exact ⟨cuD_point, cuA_point⟩

/-! ### A concrete sub-path on which the merger is not idempotent (C2) -/

/-- Segment 0 of the non-idempotence sub-path: from `0` to `10`. -/
def m0 : Segment := .line 0 10

/-- Segment 1: from `10` straight up to `10 + 16i` (chord 16). -/
def m1 : Segment := .line 10 (10 + 16*Complex.I)

/-- Segment 2: from `10 + 16i` down-left to `2 + 9i` (chord √113). -/
def m2 : Segment := .line (10 + 16*Complex.I) (2 + 9*Complex.I)

/-- The single (open) sub-path; its three vertices are all cusps. -/
def triPaths : List (List Segment) := [[m0, m1, m2]]

/-- Cusp at vertex `(0,0)` (point `10`, turning angle `-π/2`). -/
noncomputable def cu0 : Cusp := mkCusp triPaths (0, 0)

/-- Cusp at vertex `(0,1)` (point `10 + 16i`). -/
noncomputable def cu1 : Cusp := mkCusp triPaths (0, 1)

/-- Cusp at vertex `(0,2)` (point `2 + 9i`). -/
noncomputable def cu2 : Cusp := mkCusp triPaths (0, 2)

/-- The cusp produced by merging `cu1` into `cu2`. -/
noncomputable def cuX : Cusp := ⟨(0, 2), 2 + 9*Complex.I, 16*Complex.I, 10, π/2⟩

/-- The single cusp left by the first merger run. -/
noncomputable def cuF : Cusp := ⟨(0, 0), 10, 16*Complex.I, 16*Complex.I, 0⟩

lemma cu0_point : cu0.point = 10 := rfl

lemma cu1_point : cu1.point = 10 + 16*Complex.I := rfl

lemma cu2_point : cu2.point = 2 + 9*Complex.I := rfl

lemma cu0_index : cu0.index = (0, 0) := rfl

lemma cu1_index : cu1.index = (0, 1) := rfl

lemma cu2_index : cu2.index = (0, 2) := rfl

lemma cu1_t1 : cu1.tangent1 = 16*Complex.I := by
  show (10 + 16*Complex.I - 10 : ℂ) = 16*Complex.I
  ring

lemma cu2_t2 : cu2.tangent2 = 10 := by
  have h : cu2.tangent2 = (10:ℂ) - 0 := by
    simp [cu2, mkCusp, get_tangents, triPaths, m0, tangentOut]
  rw [h]
  ring

lemma cu0_t2 : cu0.tangent2 = 16*Complex.I := by
  have h : cu0.tangent2 = (10 + 16*Complex.I - 10 : ℂ) := by
    simp [cu0, mkCusp, get_tangents, triPaths, m1, tangentOut]
  rw [h]
  ring

lemma get_angle_self {v : ℂ} (hv : v ≠ 0) : get_angle v v = 0 := by
  rw [get_angle, if_neg (by simp [hv]), div_self hv, Complex.arg_one]

lemma sixteen_I_ne : (16*Complex.I : ℂ) ≠ 0 :=
  mul_ne_zero (by norm_num) Complex.I_ne_zero

/-- `arg` of a point in the open third quadrant, in `arcsin` form. -/
lemma arg_neg_neg (a b : ℝ) (ha : 0 < a) (hb : 0 < b) :
    (((-a : ℝ) : ℂ) + ((-b : ℝ) : ℂ) * Complex.I).arg =
      Real.arcsin (b / Real.sqrt (a^2 + b^2)) - π := by
  have hre : (((-a : ℝ) : ℂ) + ((-b : ℝ) : ℂ) * Complex.I).re < 0 := by
    simp
    linarith
  have him : (((-a : ℝ) : ℂ) + ((-b : ℝ) : ℂ) * Complex.I).im < 0 := by
    simp
    linarith
  rw [Complex.arg_of_re_neg_of_im_neg hre him]
  have him' : (-(((-a : ℝ) : ℂ) + ((-b : ℝ) : ℂ) * Complex.I)).im = b := by
    simp
  have habs : Complex.abs (((-a : ℝ) : ℂ) + ((-b : ℝ) : ℂ) * Complex.I) =
      Real.sqrt (a^2 + b^2) := by
    rw [Complex.abs_apply]
    congr 1
    simp [Complex.normSq_apply]
    ring
  rw [him', habs]

lemma ga_16I_10 : get_angle (16*Complex.I) (10:ℂ) = π/2 := by
  rw [get_angle, if_neg (by simp [sixteen_I_ne])]
  rw [show (16*Complex.I)/(10:ℂ) = ((8/5 : ℝ) : ℂ) * Complex.I by
    rw [div_eq_iff (by norm_num : (10:ℂ) ≠ 0)]
    push_cast
    ring]
  rw [Complex.arg_real_mul _ (by norm_num : (0:ℝ) < 8/5), Complex.arg_I]

lemma cu0_angle : cu0.angle = -(π/2) := by
  have h : cu0.angle = get_angle ((10:ℂ) - 0) (10 + 16*Complex.I - 10) := by
    simp [cu0, mkCusp, get_tangents, triPaths, m0, m1, tangentIn, tangentOut]
  rw [h, show ((10:ℂ) - 0) = 10 by norm_num,
    show (10 + 16*Complex.I - 10 : ℂ) = 16*Complex.I by ring]
  rw [get_angle, if_neg (by simp [sixteen_I_ne])]
  rw [show (10:ℂ)/(16*Complex.I) = ((5/8 : ℝ) : ℂ) * (-Complex.I) by
    rw [div_eq_iff sixteen_I_ne]
    ring_nf
    rw [Complex.I_sq]
    push_cast
    ring]
  rw [Complex.arg_real_mul _ (by norm_num : (0:ℝ) < 5/8), Complex.arg_neg_I]

lemma neg87_ne : (-8 - 7*Complex.I : ℂ) ≠ 0 := by
  intro h
  rw [Complex.ext_iff] at h
  simp at h

lemma cu1_angle : cu1.angle = Real.arcsin (8 / Real.sqrt 113) - π := by
  have h : cu1.angle =
      get_angle (10 + 16*Complex.I - 10) (2 + 9*Complex.I - (10 + 16*Complex.I)) := by
    simp [cu1, mkCusp, get_tangents, triPaths, m1, m2, tangentIn, tangentOut]
  rw [h, show (10 + 16*Complex.I - 10 : ℂ) = 16*Complex.I by ring,
    show (2 + 9*Complex.I - (10 + 16*Complex.I) : ℂ) = -8 - 7*Complex.I by ring]
  rw [get_angle, if_neg (by simp [sixteen_I_ne, neg87_ne])]
  rw [show (16*Complex.I)/(-8 - 7*Complex.I : ℂ) =
      ((16/113 : ℝ) : ℂ) * (((-7 : ℝ) : ℂ) + ((-8 : ℝ) : ℂ) * Complex.I) by
    rw [div_eq_iff neg87_ne]
    ring_nf
    rw [Complex.I_sq]
    push_cast
    ring]
  rw [Complex.arg_real_mul _ (by norm_num : (0:ℝ) < 16/113),
    arg_neg_neg 7 8 (by norm_num) (by norm_num),
    show (7:ℝ)^2 + 8^2 = 113 by norm_num]

lemma cu2_angle : cu2.angle = Real.arcsin (7 / Real.sqrt 113) - π := by
  have h : cu2.angle =
      get_angle (2 + 9*Complex.I - (10 + 16*Complex.I)) ((10:ℂ) - 0) := by
    simp [cu2, mkCusp, get_tangents, triPaths, m0, m2, tangentIn, tangentOut]
  rw [h, show (2 + 9*Complex.I - (10 + 16*Complex.I) : ℂ) = -8 - 7*Complex.I by ring,
    show ((10:ℂ) - 0) = 10 by norm_num]
  rw [get_angle, if_neg (by simp [neg87_ne])]
  rw [show (-8 - 7*Complex.I : ℂ)/(10:ℂ) =
      ((1/10 : ℝ) : ℂ) * (((-8 : ℝ) : ℂ) + ((-7 : ℝ) : ℂ) * Complex.I) by
    rw [div_eq_iff (by norm_num : (10:ℂ) ≠ 0)]
    push_cast
    ring]
  rw [Complex.arg_real_mul _ (by norm_num : (0:ℝ) < 1/10),
    arg_neg_neg 8 7 (by norm_num) (by norm_num),
    show (8:ℝ)^2 + 7^2 = 113 by norm_num]

lemma abs_arcsin_sub_pi_gt (x : ℝ) : |Real.arcsin x - π| > MIN_CUSP_ANGLE := by
  have h1 := Real.arcsin_le_pi_div_two x
  have h2 : Real.arcsin x - π < 0 := by nlinarith [Real.pi_pos]
  rw [abs_of_neg h2, MIN_CUSP_ANGLE]
  nlinarith [Real.pi_pos]

lemma abs_neg_half_pi_gt : |(-(π/2))| > MIN_CUSP_ANGLE := by
  rw [abs_neg, abs_of_pos (by positivity : (0:ℝ) < π/2), MIN_CUSP_ANGLE]
  nlinarith [Real.pi_pos]

lemma detect_tri : detectCusps triPaths 0 = [cu0, cu1, cu2] := by
  unfold detectCusps
  rw [show (triPaths.getD 0 []).length = 3 from rfl,
    show List.range 3 = [0, 1, 2] from rfl]
  simp only [List.map_cons, List.map_nil]
  have hd0 : decide (|(mkCusp triPaths (0, 0)).angle| > MIN_CUSP_ANGLE) = true :=
    decide_eq_true (by rw [show mkCusp triPaths (0, 0) = cu0 from rfl, cu0_angle]
                       exact abs_neg_half_pi_gt)
  have hd1 : decide (|(mkCusp triPaths (0, 1)).angle| > MIN_CUSP_ANGLE) = true :=
    decide_eq_true (by rw [show mkCusp triPaths (0, 1) = cu1 from rfl, cu1_angle]
                       exact abs_arcsin_sub_pi_gt _)
  have hd2 : decide (|(mkCusp triPaths (0, 2)).angle| > MIN_CUSP_ANGLE) = true :=
    decide_eq_true (by rw [show mkCusp triPaths (0, 2) = cu2 from rfl, cu2_angle]
                       exact abs_arcsin_sub_pi_gt _)
  simp only [List.filter_cons, List.filter_nil, hd0, hd1, hd2, if_true]
  rfl

lemma abs_le_max_merge {z : ℂ} (h : Complex.normSq z ≤ 225) :
    Complex.abs z ≤ MAX_CUSP_MERGE_DISTANCE := by
  have h15 : Complex.abs z ≤ (15:ℝ) := by
    rw [complex_abs_le_iff (by norm_num : (0:ℝ) ≤ 15)]
    norm_num
    linarith
  exact h15

lemma hbranch1 : ¬ (|cu1.angle| > |cu2.angle|) := by
  rw [cu1_angle, cu2_angle, not_lt]
  have hs : (0:ℝ) < Real.sqrt 113 := Real.sqrt_pos.mpr (by norm_num)
  have h1 : Real.arcsin (8 / Real.sqrt 113) - π < 0 := by
    nlinarith [Real.arcsin_le_pi_div_two (8 / Real.sqrt 113), Real.pi_pos]
  have h2 : Real.arcsin (7 / Real.sqrt 113) - π < 0 := by
    nlinarith [Real.arcsin_le_pi_div_two (7 / Real.sqrt 113), Real.pi_pos]
  rw [abs_of_neg h1, abs_of_neg h2]
  have hmono : Real.arcsin (7 / Real.sqrt 113) ≤ Real.arcsin (8 / Real.sqrt 113) :=
    Real.monotone_arcsin ((div_le_div_right hs).mpr (by norm_num))
  linarith

lemma cuX_eq : mergeUpdate cu1 cu2 = cuX := by
  rw [mergeUpdate, if_neg hbranch1]
  show Cusp.mk (cu2.index, cu2.point).1 (cu2.index, cu2.point).2 cu1.tangent1
    cu2.tangent2 (get_angle cu1.tangent1 cu2.tangent2) = cuX
  rw [cu1_t1, cu2_t2]
  show Cusp.mk cu2.index cu2.point (16*Complex.I) 10
    (get_angle (16*Complex.I) 10) = cuX
  rw [ga_16I_10, cu2_index, cu2_point]
  rfl

lemma hbranch2 : ¬ (|cuX.angle| > |cu0.angle|) := by
  rw [cu0_angle, show cuX.angle = π/2 from rfl, abs_neg]
  exact lt_irrefl _

lemma cuF_eq : mergeUpdate cuX cu0 = cuF := by
  rw [mergeUpdate, if_neg hbranch2]
  show Cusp.mk (cu0.index, cu0.point).1 (cu0.index, cu0.point).2 cuX.tangent1
    cu0.tangent2 (get_angle cuX.tangent1 cu0.tangent2) = cuF
  rw [cu0_t2]
  show Cusp.mk cu0.index cu0.point (16*Complex.I) (16*Complex.I)
    (get_angle (16*Complex.I) (16*Complex.I)) = cuF
  rw [get_angle_self sixteen_I_ne, cu0_index, cu0_point]
  rfl

lemma arcWalk_step (path : List Segment) (k fuel j : ℕ) (h : j ≠ k) :
    arcWalk path k (fuel + 1) j =
      Complex.abs ((path.getD ((j + 1) % path.length) default).end' -
        (path.getD ((j + 1) % path.length) default).start) +
        arcWalk path k fuel ((j + 1) % path.length) := by
  rw [arcWalk, if_neg h]

lemma mc01_not : ¬ mergeCond triPaths cu0 cu1 :=
  mergeCond_not_far (by
    rw [cu1_point, cu0_point]
    simp [Complex.normSq_apply]
    norm_num)

lemma mc12 : mergeCond triPaths cu1 cu2 := by
  constructor
  · rw [cu2_point, cu1_point]
    exact abs_le_max_merge (by simp [Complex.normSq_apply]; norm_num)
  · show arcWalk [m0, m1, m2] 2 3 1 ≤ MAX_CUSP_MERGE_DISTANCE
    rw [show (3:ℕ) = 2 + 1 from rfl, arcWalk_step _ _ _ _ (by norm_num)]
    have hidx : (1 + 1) % ([m0, m1, m2] : List Segment).length = 2 := by simp
    rw [hidx, arcWalk_self, add_zero]
    show Complex.abs (2 + 9*Complex.I - (10 + 16*Complex.I)) ≤ MAX_CUSP_MERGE_DISTANCE
    exact abs_le_max_merge (by simp [Complex.normSq_apply]; norm_num)

lemma mcX0 : mergeCond triPaths cuX cu0 := by
  constructor
  · show Complex.abs ((10:ℂ) - (2 + 9*Complex.I)) ≤ MAX_CUSP_MERGE_DISTANCE
    exact abs_le_max_merge (by simp [Complex.normSq_apply]; norm_num)
  · show arcWalk [m0, m1, m2] 0 3 2 ≤ MAX_CUSP_MERGE_DISTANCE
    rw [show (3:ℕ) = 2 + 1 from rfl, arcWalk_step _ _ _ _ (by norm_num)]
    have hidx : (2 + 1) % ([m0, m1, m2] : List Segment).length = 0 := by simp
    rw [hidx, arcWalk_self, add_zero]
    show Complex.abs ((10:ℂ) - 0) ≤ MAX_CUSP_MERGE_DISTANCE
    exact abs_le_max_merge (by simp [Complex.normSq_apply]; norm_num)

lemma merger_tri : merger triPaths [cu0, cu1, cu2] = [cuF] := by
  have h30 : (0:ℕ) < ([cu0, cu1, cu2] : List Cusp).length := by simp
  have g00 : ([cu0, cu1, cu2] : List Cusp).get ⟨0, h30⟩ = cu0 := rfl
  have g01 : ([cu0, cu1, cu2] : List Cusp).get
      ⟨(0 + 1) % ([cu0, cu1, cu2] : List Cusp).length,
        Nat.mod_lt _ (Nat.zero_lt_of_lt h30)⟩ = cu1 := by simp
  rw [merger, mergeLoop_step_advance h30 (by rw [g00, g01]; exact mc01_not)]
  show mergeLoop triPaths [cu0, cu1, cu2] 1 = [cuF]
  have h31 : (1:ℕ) < ([cu0, cu1, cu2] : List Cusp).length := by simp
  have g11 : ([cu0, cu1, cu2] : List Cusp).get ⟨1, h31⟩ = cu1 := rfl
  have g12 : ([cu0, cu1, cu2] : List Cusp).get
      ⟨(1 + 1) % ([cu0, cu1, cu2] : List Cusp).length,
        Nat.mod_lt _ (Nat.zero_lt_of_lt h31)⟩ = cu2 := by simp
  rw [mergeLoop_step_merge h31 (by rw [g11, g12]; exact mc12)]
  have hlst : (([cu0, cu1, cu2] : List Cusp).set
      ((1 + 1) % ([cu0, cu1, cu2] : List Cusp).length)
      (mergeUpdate (([cu0, cu1, cu2] : List Cusp).get ⟨1, h31⟩)
        (([cu0, cu1, cu2] : List Cusp).get
          ⟨(1 + 1) % ([cu0, cu1, cu2] : List Cusp).length,
            Nat.mod_lt _ (Nat.zero_lt_of_lt h31)⟩))).eraseIdx 1 = [cu0, cuX] := by
    rw [g11, g12, cuX_eq]
    simp
  rw [hlst]
  have h21 : (1:ℕ) < ([cu0, cuX] : List Cusp).length := by simp
  have g21 : ([cu0, cuX] : List Cusp).get ⟨1, h21⟩ = cuX := rfl
  have g20 : ([cu0, cuX] : List Cusp).get
      ⟨(1 + 1) % ([cu0, cuX] : List Cusp).length,
        Nat.mod_lt _ (Nat.zero_lt_of_lt h21)⟩ = cu0 := by simp
  rw [mergeLoop_step_merge h21 (by rw [g21, g20]; exact mcX0)]
  have hlst2 : (([cu0, cuX] : List Cusp).set
      ((1 + 1) % ([cu0, cuX] : List Cusp).length)
      (mergeUpdate (([cu0, cuX] : List Cusp).get ⟨1, h21⟩)
        (([cu0, cuX] : List Cusp).get
          ⟨(1 + 1) % ([cu0, cuX] : List Cusp).length,
            Nat.mod_lt _ (Nat.zero_lt_of_lt h21)⟩))).eraseIdx 1 = [cuF] := by
    rw [g21, g20, cuF_eq]
    simp
  rw [hlst2]
  exact mergeLoop_stop (by simp)

/-- C2 (counterexample): on the cusp list the detector produces for the
concrete sub-path of `triPaths`, the first merger run ends with a single
cusp (its final merge happens at the wrap-around pair, which exits the scan),
and a second run merges that cusp with itself and removes it: the merger is
not idempotent. -/
theorem merger_not_idempotent :
    merger triPaths (merger triPaths (detectCusps triPaths 0)) ≠
      merger triPaths (detectCusps triPaths 0) := by
  rw [detect_tri, merger_tri, merger_single_aux]
  simp

/-- C2 (amended): re-running the merger on its own output can merge further
(it is not idempotent), but it never lengthens the list. -/
theorem merger_rerun_length_le (paths : List (List Segment)) (l : List Cusp) :
    (merger paths (merger paths l)).length ≤ (merger paths l).length :=
  mergeLoop_length_le paths (2 * (merger paths l).length) (merger paths l) 0
    (by omega)
